import Mathlib

/-!
Verification of the repren core (src/repren.py): a shallow embedding of the
string-matching engine, the case-variant expander, the pattern compiler and
the file-transform protocol, together with theorems settling the frozen
claims about them.

Python strings are modelled as `List Char` (the repository processes byte
strings; all inputs appearing in the claims are ASCII, where byte-wise and
codepoint-wise comparison agree).  Fallible Python code (exceptions) is
modelled with `Option`/`Except`.  Unbounded `while` loops are modelled with
an explicit fuel parameter so every definition stays executable.
-/

namespace Repren

/-! ### Python string helpers -/

/-- Characters removed by Python's `str.strip()`. -/
def isPySpace (c : Char) : Bool :=
  c = ' ' || c = '\t' || c = '\n' || c = '\r' || c = '\x0b' || c = '\x0c'

/-- Model of Python `line.strip()`. -/
def pyStrip (l : List Char) : List Char :=
  ((l.dropWhile isPySpace).reverse.dropWhile isPySpace).reverse

/-- Model of Python `s.split(sep)` for a one-character separator: always
returns at least one (possibly empty) field. -/
def splitOnCh (sep : Char) : List Char → List (List Char)
  | [] => [[]]
  | c :: rest =>
    match splitOnCh sep rest with
    | [] => [[]]
    | g :: gs => if c = sep then [] :: g :: gs else (c :: g) :: gs

/-- Model of Python `s.splitlines()` for `\n`-separated text (the pattern
files of the claims use `\n` line ends): a trailing newline produces no
final empty line. -/
def pySplitlines (s : String) : List (List Char) :=
  let parts := splitOnCh '\n' s.data
  if s.data.getLast? = some '\n' || s.data = [] then parts.dropLast else parts

/-! ### Match resolution engine (`_overlap`, `_sort_drop_overlaps`,
`_apply_replacements`, `multi_replace`)

The rules appearing in every claim are literal strings, so a compiled
pattern is embedded as the literal character sequence it matches and
`regex.finditer` as the scan for leftmost non-overlapping literal
occurrences (with the regex engine's convention that an empty pattern
matches at every position and the scan then advances by one). -/

/-- One regex match object: its span `[start, stop)`, the replacement text
paired with it by `multi_replace`, and the source pattern (used by the
overlap log messages in the source; kept for fidelity). -/
structure PyMatch where
  start : Nat
  stop : Nat
  repl : List Char
  pat : List Char
deriving DecidableEq

/-- Source `_overlap`: strict half-open interval intersection
`match1.start() < match2.end() and match2.start() < match1.end()`. -/
def overlapB (m1 m2 : PyMatch) : Bool :=
  decide (m1.start < m2.stop) && decide (m2.start < m1.stop)

/-- Scan of `regex.finditer(input)` for a literal pattern, from position
`p` with `rest = input[p:]`.  The fuel is `input.length + 1`, enough for
every step since each recursive call drops at least one character. -/
def finditerAux (fuel : Nat) (pat rest : List Char) (p : Nat) : List (Nat × Nat) :=
  match fuel with
  | 0 => []
  | fuel + 1 =>
    if pat.isPrefixOf rest then
      if pat.length = 0 then
        match rest with
        | [] => [(p, p)]
        | _ :: rs => (p, p) :: finditerAux fuel pat rs (p + 1)
      else
        (p, p + pat.length) :: finditerAux fuel pat (rest.drop pat.length) (p + pat.length)
    else
      match rest with
      | [] => []
      | _ :: rs => finditerAux fuel pat rs (p + 1)

/-- All matches of a literal pattern in the input, leftmost and
non-overlapping, as produced by `regex.finditer`. -/
def finditer (pat input : List Char) : List (Nat × Nat) :=
  finditerAux (input.length + 1) pat input 0

/-- Python `bisect.bisect_left(starts, x)`.  The source only ever calls it
on the sorted list `starts`, where the binary search coincides with the
index of the first element `≥ x`. -/
def bisectLeft (l : List Nat) (x : Nat) : Nat :=
  (l.takeWhile (fun y => decide (y < x))).length

/-- Python `list.insert(i, a)` (appends when `i ≥ length`). -/
def insertAt (i : Nat) (a : α) (l : List α) : List α :=
  l.take i ++ a :: l.drop i

/-- Overlap test against an optional neighbour (absent neighbour: no
overlap, mirroring the `index > 0` / `index < len(non_overlaps)` guards). -/
def overlapO : Option PyMatch → PyMatch → Bool
  | none, _ => false
  | some x, m => overlapB x m

/-- One iteration of the loop body of `_sort_drop_overlaps`: state is the
pair `(starts, non_overlaps)`; the new match is inserted at its
`bisect_left` position unless it overlaps the predecessor or successor
there. -/
def sdoStep (acc : List Nat × List PyMatch) (m : PyMatch) : List Nat × List PyMatch :=
  let i := bisectLeft acc.1 m.start
  if 0 < i ∧ overlapO (acc.2.get? (i - 1)) m = true then acc
  else if overlapO (acc.2.get? i) m = true then acc
  else (insertAt i m.start acc.1, insertAt i m acc.2)

/-- Source `_sort_drop_overlaps` (log messages elided): fold the match
list through `sdoStep` starting from empty state. -/
def sortDropOverlaps (ms : List PyMatch) : List PyMatch :=
  (ms.foldl sdoStep ([], [])).2

/-- Source `_apply_replacements`: walk the selected matches, copying
`input[pos:match.start()]`, emitting the replacement, and advancing `pos`
to `match.end()`; literal replacements make `match.expand` the identity. -/
def applyReplacements (input : List Char) : Nat → List PyMatch → List Char
  | pos, [] => input.drop pos
  | pos, m :: rest =>
    (input.drop pos).take (m.start - pos) ++ m.repl ++ applyReplacements input m.stop rest

/-- Counts returned by `multi_replace` (`_MatchCounts(found, valid)`). -/
structure MatchCounts where
  found : Nat
  valid : Nat
deriving DecidableEq

/-- The match-collection loop of `multi_replace`: every rule, in declared
order, contributes all its `finditer` matches tagged with its
replacement. -/
def collectMatches (input : List Char) (patterns : List (List Char × List Char)) :
    List PyMatch :=
  (patterns.map (fun pr =>
    (finditer pr.1 input).map (fun sp => ⟨sp.1, sp.2, pr.2, pr.1⟩))).flatten

/-- Source `multi_replace` (tally side effects elided): collect all
matches, select the non-overlapping subset, apply it. -/
def multiReplace (input : List Char) (patterns : List (List Char × List Char)) :
    List Char × MatchCounts :=
  let found := collectMatches input patterns
  let valid := sortDropOverlaps found
  (applyReplacements input 0 valid, ⟨found.length, valid.length⟩)

/-- `multi_replace` at the `String` interface. -/
def multiReplaceS (input : String) (patterns : List (String × String)) :
    String × MatchCounts :=
  let r := multiReplace input.data (patterns.map (fun pr => (pr.1.data, pr.2.data)))
  (String.mk r.1, r.2)

/-- Span of a match, for readable statements. -/
def spanOf (m : PyMatch) : Nat × Nat := (m.start, m.stop)

/-! ### Case handling (`_split_name`, `_capitalize`, the four renderers,
`_transform_expr`, `all_case_variants`) -/

/-- The class `[A-Z]` of the two camel-split regexes. -/
def isUpperAZ (c : Char) : Bool := decide ('A' ≤ c) && decide (c ≤ 'Z')

/-- Source `_camel_split_pat1.sub("\\1\t\\2", ·)`: insert a tab between a
non-uppercase character and a following uppercase one; as in `re.sub`,
matches are non-overlapping, so both matched characters are consumed. -/
def camelSub1 : List Char → List Char
  | [] => []
  | [c] => [c]
  | c1 :: c2 :: rest =>
    if !isUpperAZ c1 && isUpperAZ c2 then c1 :: '\t' :: c2 :: camelSub1 rest
    else c1 :: camelSub1 (c2 :: rest)

/-- Source `_camel_split_pat2.sub("\\1\t\\2", ·)`: insert a tab between two
uppercase characters when the second is followed by a non-uppercase one
(`([A-Z])([A-Z][^A-Z])`); the three matched characters are consumed. -/
def camelSub2 : List Char → List Char
  | c1 :: c2 :: c3 :: rest =>
    if isUpperAZ c1 && isUpperAZ c2 && !isUpperAZ c3 then
      c1 :: '\t' :: c2 :: c3 :: camelSub2 rest
    else c1 :: camelSub2 (c2 :: c3 :: rest)
  | l => l

/-- Source `_split_name`: underscore names split on `_`, camel names split
at the boundaries inserted by the two regexes.  Returns separator and
words. -/
def splitName (name : List Char) : List Char × List (List Char) :=
  if name.contains '_' then (['_'], splitOnCh '_' name)
  else ([], splitOnCh '\t' (camelSub2 (camelSub1 name)))

/-- Source `_capitalize`: `word[0].upper() + word[1:].lower()`.  Indexing
`word[0]` raises `IndexError` on an empty word, modelled as `none`. -/
def pyCapitalize : List Char → Option (List Char)
  | [] => none
  | c :: rest => some (c.toUpper :: rest.map Char.toLower)

/-- Sequential mapping over `Option` (a Python list comprehension whose
body may raise: the first exception propagates). -/
def optionMapM (f : α → Option β) : List α → Option (List β)
  | [] => some []
  | x :: xs => do
    let y ← f x
    let ys ← optionMapM f xs
    pure (y :: ys)

/-- Source `to_lower_camel`.  The word list of `_split_name` is never
empty, but the `[]` case must be covered; it mirrors the `words[0]`
access. -/
def toLowerCamel (name : List Char) : Option (List Char) :=
  match (splitName name).2 with
  | [] => none
  | w :: ws => do
    let capped ← optionMapM pyCapitalize ws
    pure (w.map Char.toLower ++ capped.flatten)

/-- Source `to_upper_camel`. -/
def toUpperCamel (name : List Char) : Option (List Char) := do
  let capped ← optionMapM pyCapitalize (splitName name).2
  pure capped.flatten

/-- Source `to_lower_underscore` (total: no indexing occurs). -/
def toLowerUnderscore (name : List Char) : Option (List Char) :=
  some (List.intercalate ['_'] (((splitName name).2).map (fun w => w.map Char.toLower)))

/-- Source `to_upper_underscore` (total: no indexing occurs). -/
def toUpperUnderscore (name : List Char) : Option (List Char) :=
  some (List.intercalate ['_'] (((splitName name).2).map (fun w => w.map Char.toUpper)))

/-- The class `\w` of `_name_pat` for byte strings: `[a-zA-Z0-9_]`. -/
def isWordChar (c : Char) : Bool :=
  (decide ('a' ≤ c) && decide (c ≤ 'z')) || (decide ('A' ≤ c) && decide (c ≤ 'Z')) ||
    (decide ('0' ≤ c) && decide (c ≤ '9')) || c = '_'

/-- Decomposition of a string into maximal runs of equal `isWordChar`
status, in order; the `Bool` flags whether the run is an identifier-like
token (a match of `_name_pat`). -/
def charRuns : List Char → List (Bool × List Char)
  | [] => []
  | c :: rest =>
    match charRuns rest with
    | [] => [(isWordChar c, [c])]
    | (b, xs) :: more =>
      if isWordChar c = b then (b, c :: xs) :: more
      else (isWordChar c, [c]) :: (b, xs) :: more

/-- The identifier-like tokens of an expression: the maximal `\w+` runs,
i.e. the strings `_name_pat.sub` feeds to its transform. -/
def tokensOf (expr : List Char) : List (List Char) :=
  ((charRuns expr).filter (fun seg => seg.1)).map (fun seg => seg.2)

/-- Source `_transform_expr`: `_name_pat.sub(lambda m: transform(m.group()), expr)` —
every maximal `\w+` run is rewritten by the transform, other characters
pass through; an exception in the transform propagates. -/
def transformExpr (t : List Char → Option (List Char)) (expr : List Char) :
    Option (List Char) := do
  let segs ← optionMapM (fun seg => if seg.1 then t seg.2 else some seg.2) (charRuns expr)
  pure segs.flatten

/-- Source `all_case_variants`: the four whole-string variants, in the
fixed order lowerCamel, UpperCamel, lower_underscore, UPPER_UNDERSCORE. -/
def allCaseVariants (expr : List Char) : Option (List (List Char)) := do
  let a ← transformExpr toLowerCamel expr
  let b ← transformExpr toUpperCamel expr
  let c ← transformExpr toLowerUnderscore expr
  let d ← transformExpr toUpperUnderscore expr
  pure [a, b, c, d]

/-! ### Pattern compiler (`parse_patterns`)

A compiled rule is embedded as its (pattern source, replacement) string
pair; the `re.compile` step adds no information the claims consult. -/

/-- Python byte-string `<` as a Boolean lexicographic comparison on
characters (for ASCII data byte order and codepoint order agree). -/
def strLtB : List Char → List Char → Bool
  | [], [] => false
  | [], _ :: _ => true
  | _ :: _, [] => false
  | a :: as, b :: bs => if a < b then true else if b < a then false else strLtB as bs

/-- Python tuple comparison `(p1, p2) < (q1, q2)` on string pairs. -/
def pairLtB (p q : String × String) : Bool :=
  if strLtB p.1.data q.1.data then true
  else if p.1 = q.1 then strLtB p.2.data q.2.data
  else false

/-- Insertion into a strictly-sorted duplicate-free list, dropping the
element if already present. -/
def insertSorted (p : String × String) : List (String × String) → List (String × String)
  | [] => [p]
  | q :: rest =>
    if pairLtB p q then p :: q :: rest
    else if p = q then q :: rest
    else q :: insertSorted p rest

/-- Python `sorted(set(pairs))`: the strictly-sorted list of the distinct
elements of `pairs`. -/
def sortedDedup (l : List (String × String)) : List (String × String) :=
  l.foldl (fun acc p => insertSorted p acc) []

/-- Python 2 `re.escape`: every character outside `[a-zA-Z0-9_]` is
preceded by a backslash. -/
def pyReEscape (l : List Char) : List Char :=
  (l.map (fun c => if isWordChar c then [c] else ['\\', c])).flatten

/-- The `\b`-wrapping applied to each emitted pattern when `word_breaks`
is set. -/
def wrapWordBreaks (wb : Bool) (prs : List (String × String)) : List (String × String) :=
  prs.map (fun pr => (if wb then "\\b" ++ pr.1 ++ "\\b" else pr.1, pr.2))

/-- The pattern field after the optional `re.escape` of the `literal`
flag (the replacement field is never escaped). -/
def lineRegex (literal : Bool) (regex0 : List Char) : List Char :=
  if literal then pyReEscape regex0 else regex0

/-- The body of the `parse_patterns` loop for one line.  `Except.error`
carries the offending line, modelling both the `fail(...)` call naming the
line and a propagated exception.  Note the source deduplicates with
`pairs = sorted(set(pairs))` before the word-break wrap and compile. -/
def parseLine (literal wordBreaks preserveCase : Bool) (line : List Char) :
    Except (List Char) (List (String × String)) :=
  if (pyStrip line).take 1 = ['#'] then Except.ok []
  else if pyStrip line ≠ [] ∧ (splitOnCh '\t' line).length = 2 then
    match splitOnCh '\t' line with
    | [regex0, repl] =>
      if preserveCase then
        match allCaseVariants (lineRegex literal regex0), allCaseVariants repl with
        | some vr, some vp =>
          Except.ok (wrapWordBreaks wordBreaks (sortedDedup
            ((vr.zip vp).map (fun v => (String.mk v.1, String.mk v.2)) ++
              [(String.mk (lineRegex literal regex0), String.mk repl)])))
        | _, _ => Except.error line
      else
        Except.ok (wrapWordBreaks wordBreaks
          (sortedDedup [(String.mk (lineRegex literal regex0), String.mk repl)]))
    | _ => Except.error line
  else Except.error line

/-- The loop of `parse_patterns` over the split lines (an error on any
line aborts, as `fail` exits and a raised exception propagates). -/
def parseLinesLoop (literal wordBreaks preserveCase : Bool) :
    List (List Char) → Except (List Char) (List (String × String))
  | [] => Except.ok []
  | l :: rest =>
    match parseLine literal wordBreaks preserveCase l with
    | Except.error e => Except.error e
    | Except.ok prs =>
      match parseLinesLoop literal wordBreaks preserveCase rest with
      | Except.error e => Except.error e
      | Except.ok more => Except.ok (prs ++ more)

/-- Source `parse_patterns`.  The `insensitive` flag only sets the
`re.I` compile flag, which affects no claim; it is kept for signature
fidelity. -/
def parsePatterns (patternsStr : String)
    (literal wordBreaks _insensitive preserveCase : Bool) :
    Except (List Char) (List (String × String)) :=
  parseLinesLoop literal wordBreaks preserveCase (pySplitlines patternsStr)

/-! ### File handling (`move_file`, `transform_file`, `rewrite_file`,
`rewrite_files`)

The file system is a map from paths to files; one file records its
content and its permission bits.  Claims about transform failures are
settled by injecting an I/O fault: a fault during the temp-file write
leaves whatever partial content was written and raises, exactly the
situation the claims describe.  Directory structure (`make_parent_dirs`)
adds nothing the claims consult and the map is kept flat. -/

/-- A file: content plus the permission bits `os.stat(...).st_mode & 0o777`. -/
structure PyFile where
  content : List Char
  perms : Nat
deriving DecidableEq

/-- The file system: a flat map from paths to files. -/
def FS : Type := String → Option PyFile

/-- Pointwise update of the file system. -/
def fsUpdate (fs : FS) (p : String) (f : Option PyFile) : FS :=
  fun q => if q = p then f else fs q

/-- `os.path.exists`. -/
def fsExists (fs : FS) (p : String) : Bool := (fs p).isSome

/-- `shutil.move(src, dst)`: `dst` receives the file at `src`, which
disappears. -/
def fsMove (fs : FS) (src dst : String) : FS :=
  fun q => if q = dst then fs src else if q = src then none else fs q

/-- `BACKUP_SUFFIX`. -/
def backupSuffix : String := ".orig"

/-- `TEMP_SUFFIX`. -/
def tempSuffix : String := ".repren.tmp"

/-- The regex `(.*)[.]\d+$` of `move_file`: strip a trailing `.<digits>`
suffix (the greedy `(.*)` makes it the last dot) when present; paths are
assumed newline-free (`.` does not cross newlines), as every path the
tool builds is. -/
def stripTrailingNum (p : String) : String :=
  let rev := p.data.reverse
  let digits := rev.takeWhile (fun c => decide ('0' ≤ c) && decide (c ≤ '9'))
  if digits ≠ [] ∧ (rev.drop digits.length).take 1 = ['.'] then
    String.mk (p.data.take (p.data.length - digits.length - 1))
  else p

/-- The `while os.path.exists(dest_path)` loop of `move_file` with
`clobber=False`: strip any numeric suffix, append `.<i>`, retry with
`i + 1`.  The loop terminates on every finite file system; the fuel makes
the model total, and `none` (fuel exhausted) is unreachable for adequate
fuel. -/
def resolveDest (fuel : Nat) (fs : FS) (dest : String) (i : Nat) : Option String :=
  match fuel with
  | 0 => none
  | fuel + 1 =>
    if fsExists fs dest then
      resolveDest fuel fs (stripTrailingNum dest ++ "." ++ toString i) (i + 1)
    else some dest

/-- Source `move_file`: with `clobber` the move is unconditional; without
it the destination is first diverted to a fresh path by `resolveDest`. -/
def moveFile (fuel : Nat) (fs : FS) (src dst : String) (clobber : Bool) : Option FS :=
  if clobber then some (fsMove fs src dst)
  else
    match resolveDest fuel fs dst 1 with
    | some d => some (fsMove fs src d)
    | none => none

/-- Source `transform_file` (tally side effects elided; `by_line` only
changes the granularity at which the transform is applied inside
`transform_stream`, not the commit protocol, so the transform is taken as
a whole-content function).  `fault = some partialOut` injects an I/O
error during the temp-file write after `partialOut` was written: the
exception propagates (`Except.error`) before any move.  On success, the
moves happen only when this is not a dry run and a match was found;
otherwise the temp file is removed. -/
def transformFile (fuel : Nat) (fault : Option (List Char))
    (transform : Option (List Char → List Char × MatchCounts))
    (fs : FS) (sourcePath destPath : String) (dryRun : Bool) :
    FS × Except Unit MatchCounts :=
  match transform with
  | none => (fs, Except.ok ⟨0, 0⟩)
  | some f =>
    let origPath := sourcePath ++ backupSuffix
    let tempPath := destPath ++ tempSuffix
    match fs sourcePath with
    | none => (fs, Except.error ())
    | some file =>
      match fault with
      | some partialOut =>
        (fsUpdate fs tempPath (some ⟨partialOut, file.perms⟩), Except.error ())
      | none =>
        let res := f file.content
        let fs1 := fsUpdate fs tempPath (some ⟨res.1, file.perms⟩)
        if ¬dryRun ∧ 0 < res.2.found then
          let fs2 := fsMove fs1 sourcePath origPath
          match moveFile fuel fs2 tempPath destPath false with
          | some fs3 => (fs3, Except.ok res.2)
          | none => (fs2, Except.error ())
        else
          (fsUpdate fs1 tempPath none, Except.ok res.2)

/-- Source `rewrite_file` (logging elided): compute the destination by
applying the rules to the path when renaming, build the content transform
when rewriting contents, and run `transform_file`. -/
def rewriteFile (fuel : Nat) (faults : String → Option (List Char))
    (patterns : List (String × String)) (doRenames doContents : Bool)
    (fs : FS) (path : String) (dryRun : Bool) : FS × Except Unit Unit :=
  let destPath := if doRenames then (multiReplaceS path patterns).1 else path
  let transform :=
    if doContents then
      some (fun c =>
        let r := multiReplace c (patterns.map (fun pr => (pr.1.data, pr.2.data)))
        (r.1, r.2))
    else none
  let r := transformFile fuel (faults path) transform fs path destPath dryRun
  (r.1, r.2.map (fun _ => ()))

/-- The loop of `rewrite_files` over the walked paths.  The source wraps
`rewrite_file` in no exception handler, so an error raised while
processing one file propagates and ends the loop. -/
def rewriteFiles (fuel : Nat) (faults : String → Option (List Char))
    (patterns : List (String × String)) (doRenames doContents : Bool)
    (fs : FS) (paths : List String) (dryRun : Bool) : FS × Except Unit Unit :=
  match paths with
  | [] => (fs, Except.ok ())
  | p :: rest =>
    let r := rewriteFile fuel faults patterns doRenames doContents fs p dryRun
    match r.2 with
    | Except.error e => (r.1, Except.error e)
    | Except.ok _ => rewriteFiles fuel faults patterns doRenames doContents r.1 rest dryRun

/-! ### Supporting lemmas -/

theorem bool_not_true {b : Bool} (h : ¬ b = true) : b = false := by
  cases b
  · rfl
  · exact absurd rfl h

theorem strLtB_irrefl : ∀ l : List Char, strLtB l l = false
  | [] => rfl
  | c :: rest => by simp [strLtB, strLtB_irrefl rest]

theorem strLtB_connex : ∀ a b : List Char, strLtB a b = false → a ≠ b → strLtB b a = true := by
  intro a
  induction a with
  | nil =>
    intro b h hne
    cases b with
    | nil => exact absurd rfl hne
    | cons y ys => simp [strLtB] at h
  | cons x xs ih =>
    intro b h hne
    cases b with
    | nil => rfl
    | cons y ys =>
      by_cases hxy : x < y
      · simp [strLtB, hxy] at h
      · by_cases hyx : y < x
        · simp [strLtB, hyx]
        · have hxy' : x = y := le_antisymm (not_lt.mp hyx) (not_lt.mp hxy)
          subst hxy'
          simp only [strLtB, if_neg (lt_irrefl x)] at h ⊢
          exact ih ys h (fun he => hne (by rw [he]))

theorem strLtB_trans :
    ∀ a b c : List Char, strLtB a b = true → strLtB b c = true → strLtB a c = true := by
  intro a
  induction a with
  | nil =>
    intro b c hab hbc
    cases b with
    | nil => simp [strLtB] at hab
    | cons y ys =>
      cases c with
      | nil => simp [strLtB] at hbc
      | cons z zs => rfl
  | cons x xs ih =>
    intro b c hab hbc
    cases b with
    | nil => simp [strLtB] at hab
    | cons y ys =>
      cases c with
      | nil => simp [strLtB] at hbc
      | cons z zs =>
        by_cases hxy : x < y
        · by_cases hyz : y < z
          · simp [strLtB, lt_trans hxy hyz]
          · by_cases hzy : z < y
            · simp [strLtB, hyz, hzy] at hbc
            · have : y = z := le_antisymm (not_lt.mp hzy) (not_lt.mp hyz)
              subst this
              simp [strLtB, hxy]
        · by_cases hyx : y < x
          · simp [strLtB, hxy, hyx] at hab
          · have : x = y := le_antisymm (not_lt.mp hyx) (not_lt.mp hxy)
            subst this
            simp only [strLtB, if_neg (lt_irrefl x)] at hab
            by_cases hxz : x < z
            · simp [strLtB, hxz]
            · by_cases hzx : z < x
              · simp [strLtB, hxz, hzx] at hbc
              · have : x = z := le_antisymm (not_lt.mp hzx) (not_lt.mp hxz)
                subst this
                simp only [strLtB, if_neg (lt_irrefl x)] at hbc ⊢
                exact ih ys zs hab hbc

theorem string_data_inj {s t : String} (h : s.data = t.data) : s = t := by
  cases s
  cases t
  exact congrArg String.mk h

theorem pair_ext {p q : String × String} (h1 : p.1 = q.1) (h2 : p.2 = q.2) : p = q := by
  cases p
  cases q
  simp only at h1 h2
  rw [h1, h2]

theorem pairLtB_connex (p q : String × String) (h : pairLtB p q = false) (hne : p ≠ q) :
    pairLtB q p = true := by
  unfold pairLtB at h ⊢
  by_cases h1 : strLtB p.1.data q.1.data = true
  · rw [if_pos h1] at h
    exact absurd h (by simp)
  · rw [if_neg h1] at h
    by_cases he : p.1 = q.1
    · rw [if_pos he] at h
      have hirr : ¬ strLtB q.1.data p.1.data = true := by
        rw [← he]
        simp [strLtB_irrefl]
      rw [if_neg hirr, if_pos he.symm]
      have hne2 : p.2 ≠ q.2 := fun h2 => hne (pair_ext he h2)
      exact strLtB_connex _ _ h (fun hd => hne2 (string_data_inj hd))
    · have hdne : p.1.data ≠ q.1.data := fun hd => he (string_data_inj hd)
      have hlt := strLtB_connex _ _ (bool_not_true h1) hdne
      rw [if_pos hlt]

theorem pairLtB_trans (p q r : String × String) (h1 : pairLtB p q = true)
    (h2 : pairLtB q r = true) : pairLtB p r = true := by
  unfold pairLtB at h1 h2 ⊢
  by_cases a1 : strLtB p.1.data q.1.data = true
  · by_cases a2 : strLtB q.1.data r.1.data = true
    · simp [strLtB_trans _ _ _ a1 a2]
    · simp only [if_neg a2] at h2
      by_cases e2 : q.1 = r.1
      · have : strLtB p.1.data r.1.data = true := by rw [← e2]; exact a1
        simp [this]
      · simp [e2] at h2
  · simp only [if_neg a1] at h1
    by_cases e1 : p.1 = q.1
    · simp only [if_pos e1] at h1
      by_cases a2 : strLtB q.1.data r.1.data = true
      · have : strLtB p.1.data r.1.data = true := by rw [e1]; exact a2
        simp [this]
      · simp only [if_neg a2] at h2
        by_cases e2 : q.1 = r.1
        · simp only [if_pos e2] at h2
          have e3 : p.1 = r.1 := e1.trans e2
          by_cases a3 : strLtB p.1.data r.1.data = true
          · simp [a3]
          · simp [if_neg a3, if_pos e3, strLtB_trans _ _ _ h1 h2]
        · simp [e2] at h2
    · simp [e1] at h1

theorem mem_insertSorted (p x : String × String) :
    ∀ l, x ∈ insertSorted p l ↔ x = p ∨ x ∈ l := by
  intro l
  induction l with
  | nil => simp [insertSorted]
  | cons q rest ih =>
    simp only [insertSorted]
    by_cases h1 : pairLtB p q = true
    · rw [if_pos h1]
      simp only [List.mem_cons]
    · rw [if_neg h1]
      by_cases h2 : p = q
      · rw [if_pos h2]
        subst h2
        simp only [List.mem_cons]
        tauto
      · rw [if_neg h2]
        simp only [List.mem_cons, ih]
        tauto

theorem pairwise_insertSorted (p : String × String) :
    ∀ l, List.Pairwise (fun a b => pairLtB a b = true) l →
      List.Pairwise (fun a b => pairLtB a b = true) (insertSorted p l) := by
  intro l
  induction l with
  | nil => intro _; simp [insertSorted]
  | cons q rest ih =>
    intro hp
    rw [List.pairwise_cons] at hp
    simp only [insertSorted]
    by_cases h1 : pairLtB p q = true
    · simp only [if_pos h1]
      refine List.Pairwise.cons ?_ (List.Pairwise.cons hp.1 hp.2)
      intro y hy
      rcases List.mem_cons.mp hy with h | h
      · subst h; exact h1
      · exact pairLtB_trans _ _ _ h1 (hp.1 y h)
    · simp only [if_neg h1]
      by_cases h2 : p = q
      · simp only [if_pos h2]
        exact List.Pairwise.cons hp.1 hp.2
      · simp only [if_neg h2]
        refine List.Pairwise.cons ?_ (ih hp.2)
        intro y hy
        rcases (mem_insertSorted p y rest).mp hy with h | h
        · rw [h]
          exact pairLtB_connex p q (bool_not_true h1) h2
        · exact hp.1 y h

theorem sortedDedup_pairwise_aux :
    ∀ (l : List (String × String)) (acc : List (String × String)),
      List.Pairwise (fun a b => pairLtB a b = true) acc →
      List.Pairwise (fun a b => pairLtB a b = true)
        (l.foldl (fun acc p => insertSorted p acc) acc) := by
  intro l
  induction l with
  | nil => intro acc h; exact h
  | cons p rest ih =>
    intro acc h
    exact ih (insertSorted p acc) (pairwise_insertSorted p acc h)

theorem sortedDedup_pairwise (l : List (String × String)) :
    List.Pairwise (fun a b => pairLtB a b = true) (sortedDedup l) :=
  sortedDedup_pairwise_aux l [] List.Pairwise.nil

theorem mem_sortedDedup_aux :
    ∀ (l acc : List (String × String)) (x : String × String),
      x ∈ l.foldl (fun acc p => insertSorted p acc) acc ↔ x ∈ acc ∨ x ∈ l := by
  intro l
  induction l with
  | nil => intro acc x; simp
  | cons p rest ih =>
    intro acc x
    simp only [List.foldl_cons, ih, mem_insertSorted, List.mem_cons]
    tauto

theorem mem_sortedDedup (l : List (String × String)) (x : String × String) :
    x ∈ sortedDedup l ↔ x ∈ l := by
  unfold sortedDedup
  rw [mem_sortedDedup_aux]
  simp

theorem wrapWordBreaks_false (prs : List (String × String)) :
    wrapWordBreaks false prs = prs := by
  unfold wrapWordBreaks
  simp

theorem resolveDest_fresh :
    ∀ (fuel : Nat) (fs : FS) (dest : String) (i : Nat) (r : String),
      resolveDest fuel fs dest i = some r → fsExists fs r = false := by
  intro fuel
  induction fuel with
  | zero =>
    intro fs dest i r h
    simp [resolveDest] at h
  | succ n ih =>
    intro fs dest i r h
    unfold resolveDest at h
    by_cases he : fsExists fs dest = true
    · rw [if_pos he] at h
      exact ih _ _ _ _ h
    · rw [if_neg he] at h
      rw [← Option.some.inj h]
      exact bool_not_true he

theorem splitOnCh_ne_nil (sep : Char) : ∀ l, splitOnCh sep l ≠ [] := by
  intro l
  cases l with
  | nil => simp [splitOnCh]
  | cons c rest =>
    cases hm : splitOnCh sep rest with
    | nil => simp [splitOnCh, hm]
    | cons g gs =>
      simp only [splitOnCh, hm]
      split <;> simp

theorem splitName_words_ne_nil (n : List Char) : (splitName n).2 ≠ [] := by
  unfold splitName
  by_cases hc : n.contains '_'
  · simp only [if_pos hc]
    exact splitOnCh_ne_nil _ _
  · simp only [if_neg hc]
    exact splitOnCh_ne_nil _ _

theorem optionMapM_isSome (f : α → Option β) :
    ∀ l : List α, (∀ x ∈ l, (f x).isSome) → (optionMapM f l).isSome := by
  intro l
  induction l with
  | nil => intro _; simp [optionMapM]
  | cons x xs ih =>
    intro h
    rcases Option.isSome_iff_exists.mp (h x (List.mem_cons_self x xs)) with ⟨y, hy⟩
    rcases Option.isSome_iff_exists.mp
      (ih (fun z hz => h z (List.mem_cons_of_mem x hz))) with ⟨ys, hys⟩
    simp [optionMapM, hy, hys]

theorem toLowerCamel_isSome (tok : List Char) (h : [] ∉ (splitName tok).2) :
    (toLowerCamel tok).isSome := by
  unfold toLowerCamel
  cases hw : (splitName tok).2 with
  | nil => exact absurd hw (splitName_words_ne_nil tok)
  | cons w ws =>
    have hall : ∀ x ∈ ws, (pyCapitalize x).isSome := by
      intro x hx
      have hmem : x ∈ (splitName tok).2 := by
        rw [hw]
        exact List.mem_cons_of_mem w hx
      cases x with
      | nil => exact absurd hmem h
      | cons c cs => simp [pyCapitalize]
    rcases Option.isSome_iff_exists.mp (optionMapM_isSome _ _ hall) with ⟨v, hv⟩
    simp [hv]

theorem toUpperCamel_isSome (tok : List Char) (h : [] ∉ (splitName tok).2) :
    (toUpperCamel tok).isSome := by
  unfold toUpperCamel
  have hall : ∀ x ∈ (splitName tok).2, (pyCapitalize x).isSome := by
    intro x hx
    cases x with
    | nil => exact absurd hx h
    | cons c cs => simp [pyCapitalize]
  rcases Option.isSome_iff_exists.mp (optionMapM_isSome _ _ hall) with ⟨v, hv⟩
  simp [hv]

theorem transformExpr_isSome (t : List Char → Option (List Char)) (expr : List Char)
    (h : ∀ tok ∈ tokensOf expr, (t tok).isSome) : (transformExpr t expr).isSome := by
  unfold transformExpr
  have hall : ∀ seg ∈ charRuns expr,
      ((fun seg : Bool × List Char => if seg.1 then t seg.2 else some seg.2) seg).isSome := by
    intro seg hseg
    by_cases hb : seg.1 = true
    · simp only [if_pos hb]
      apply h
      unfold tokensOf
      exact List.mem_map_of_mem _ (List.mem_filter.mpr ⟨hseg, hb⟩)
    · simp [if_neg hb]
  rcases Option.isSome_iff_exists.mp (optionMapM_isSome _ _ hall) with ⟨v, hv⟩
  simp [hv]

theorem append_tempSuffix_ne (s : String) : s ++ tempSuffix ≠ s := by
  intro h
  have hl := congrArg String.length h
  rw [String.length_append] at hl
  have h11 : tempSuffix.length = 11 := rfl
  omega

/-! ### Concrete scenarios used by the claims -/

/-- A run over files `a` and `b`, both containing `foo`. -/
def fsAB : FS := fun p =>
  if p = "a" then some ⟨"foo".data, 420⟩
  else if p = "b" then some ⟨"foo".data, 420⟩ else none

/-- Fault injection: the temp-file write for source `a` raises after the
partial content `f` was written; every other write succeeds. -/
def faultOnA : String → Option (List Char) :=
  fun p => if p = "a" then some "f".data else none

/-- Files `out` and `out.1` exist with distinct contents `A` and `B`; a
new file `new` with content `C` is to be moved to `out`. -/
def fsOut : FS := fun p =>
  if p = "out" then some ⟨"A".data, 420⟩
  else if p = "out.1" then some ⟨"B".data, 420⟩
  else if p = "new" then some ⟨"C".data, 420⟩ else none

/-! ### The claims -/

/-- C1: the claimed invariant — the selection of `_sort_drop_overlaps`
over the matches collected by `multi_replace` never contains two
intersecting `[start,end)` intervals — fails on the code: on buffer
`"ab"` with rules `[("", "-"), ("ab", "X")]` (the first pattern matches
the empty string at positions 0, 1, 2), the selection contains both
`[0,2)` and `[1,1)`, which intersect under `_overlap`.  The neighbour-only
check of `_sort_drop_overlaps` misses the conflict because the empty
match `[2,2)` sits between them in start order. -/
theorem c1_selection_overlap_violation :
    (sortDropOverlaps (collectMatches "ab".data
        [("".data, "-".data), ("ab".data, "X".data)])).map spanOf
      = [(0, 2), (0, 0), (1, 1), (2, 2)] ∧
    ¬ List.Pairwise (fun a b => overlapB a b = false)
      (sortDropOverlaps (collectMatches "ab".data
        [("".data, "-".data), ("ab".data, "X".data)])) := by
  exact ⟨rfl, by decide⟩

/-- C5: the claim that `parse_patterns` ignores blank lines fails on the
code: a blank line falls through to the `fail(...)` branch (its stripped
text neither starts with `#` nor is non-empty), so `"a\tb\n\n"` is a
fatal configuration error naming the blank line, while `"a\tb"` parses.
The claim is the documented behaviour ("Empty lines and #-prefixed
comments are OK"), so the code is the bug. -/
theorem c5_blank_line_is_fatal :
    parsePatterns "a\tb\n\n" false false false false = Except.error [] ∧
    parsePatterns "a\tb" false false false false = Except.ok [("a", "b")] :=
  ⟨rfl, rfl⟩

/-- C6: with rules `[("a","X"), ("ab","Y")]` over input `"ab"`,
`multi_replace` collects the match `[0,1)` of the first rule and `[0,2)`
of the second, the selection keeps only the first rule's match (the
second is rejected as overlapping it), and the output is `"Xb"`. -/
theorem c6_order_tie_break :
    (collectMatches "ab".data [("a".data, "X".data), ("ab".data, "Y".data)]).map spanOf
        = [(0, 1), (0, 2)] ∧
    (sortDropOverlaps (collectMatches "ab".data
        [("a".data, "X".data), ("ab".data, "Y".data)])).map spanOf = [(0, 1)] ∧
    (multiReplaceS "ab" [("a", "X"), ("ab", "Y")]).1 = "Xb" :=
  ⟨rfl, rfl, rfl⟩

/-- C7: rules `[("foo","bar"), ("bar","foo")]` applied by `multi_replace`
to `"foo bar"` give `"bar foo"` in one pass (both matches are located
against the original buffer and both are applied), not the sequential
result `"foo foo"`. -/
theorem c7_simultaneous_swap :
    (multiReplaceS "foo bar" [("foo", "bar"), ("bar", "foo")]).1 = "bar foo" ∧
    (multiReplaceS "foo bar" [("foo", "bar"), ("bar", "foo")]).2 = ⟨2, 2⟩ :=
  ⟨rfl, rfl⟩

/-- C8 counterexample: the claim that the expanded rules rewrite `fooBar`
to `xxxYYY` fails on the code: `to_lower_camel("xxx_yyy")` is `"xxxYyy"`,
so the compiled variant rule maps `fooBar` to `xxxYyy`, not `xxxYYY`. -/
theorem c8_lower_camel_not_xxxYYY :
    parsePatterns "foo_bar\txxx_yyy" false false false true =
      Except.ok [("FOO_BAR", "XXX_YYY"), ("FooBar", "XxxYyy"),
        ("fooBar", "xxxYyy"), ("foo_bar", "xxx_yyy")] ∧
    (multiReplaceS "fooBar"
        [("FOO_BAR", "XXX_YYY"), ("FooBar", "XxxYyy"),
          ("fooBar", "xxxYyy"), ("foo_bar", "xxx_yyy")]).1 ≠ "xxxYYY" := by
  exact ⟨rfl, by decide⟩

/-- C8 (amended): for the pattern line `foo_bar<TAB>xxx_yyy` compiled
with `preserve_case`, the expanded rule set rewrites `fooBar`, `FooBar`
and `FOO_BAR` to `xxxYyy`, `XxxYyy` and `XXX_YYY` respectively (the
lowerCamel replacement is `xxxYyy`, not the `xxxYYY` stated in the
claim). -/
theorem c8_case_variant_rewrites :
    parsePatterns "foo_bar\txxx_yyy" false false false true =
      Except.ok [("FOO_BAR", "XXX_YYY"), ("FooBar", "XxxYyy"),
        ("fooBar", "xxxYyy"), ("foo_bar", "xxx_yyy")] ∧
    (multiReplaceS "fooBar"
        [("FOO_BAR", "XXX_YYY"), ("FooBar", "XxxYyy"),
          ("fooBar", "xxxYyy"), ("foo_bar", "xxx_yyy")]).1 = "xxxYyy" ∧
    (multiReplaceS "FooBar"
        [("FOO_BAR", "XXX_YYY"), ("FooBar", "XxxYyy"),
          ("fooBar", "xxxYyy"), ("foo_bar", "xxx_yyy")]).1 = "XxxYyy" ∧
    (multiReplaceS "FOO_BAR"
        [("FOO_BAR", "XXX_YYY"), ("FooBar", "XxxYyy"),
          ("fooBar", "xxxYyy"), ("foo_bar", "xxx_yyy")]).1 = "XXX_YYY" :=
  ⟨rfl, rfl, rfl, rfl⟩

/-- C4 counterexample: the claim that the preserve-case pairs are emitted
in variant order with a stable dedup fails on the code: for the line
`foo_bar<TAB>xxx_yyy` the source's `sorted(set(pairs))` emits the pairs
in lexicographically sorted order, which differs from the stable
(variant-order) dedup `[fooBar, FooBar, foo_bar, FOO_BAR]`. -/
theorem c4_variant_order_not_preserved :
    parsePatterns "foo_bar\txxx_yyy" false false false true =
      Except.ok [("FOO_BAR", "XXX_YYY"), ("FooBar", "XxxYyy"),
        ("fooBar", "xxxYyy"), ("foo_bar", "xxx_yyy")] ∧
    ([("FOO_BAR", "XXX_YYY"), ("FooBar", "XxxYyy"),
        ("fooBar", "xxxYyy"), ("foo_bar", "xxx_yyy")] : List (String × String)) ≠
      [("fooBar", "xxxYyy"), ("FooBar", "XxxYyy"),
        ("foo_bar", "xxx_yyy"), ("FOO_BAR", "XXX_YYY")] := by
  exact ⟨rfl, by decide⟩

/-- C3 counterexample: the claim that an I/O error in one file's
temp-write does not halt a multi-file run fails on the code: with files
`a` and `b` both containing `foo`, rule `foo -> bar`, and a fault while
writing `a`'s temp file, `rewrite_files` propagates the exception —
the run ends in error and `b` still contains `foo`, although processing
`b` alone would rewrite it to `bar`. -/
theorem c3_error_not_isolated :
    (rewriteFiles 5 faultOnA [("foo", "bar")] false true fsAB ["a", "b"] false).2
        = Except.error () ∧
    (rewriteFiles 5 faultOnA [("foo", "bar")] false true fsAB ["a", "b"] false).1 "b"
        = some ⟨"foo".data, 420⟩ ∧
    (rewriteFiles 5 (fun _ => none) [("foo", "bar")] false true fsAB ["b"] false).1 "b"
        = some ⟨"bar".data, 420⟩ :=
  ⟨rfl, rfl, rfl⟩

/-- C2: an I/O error raised while writing the temporary file inside
`transform_file` aborts before any move is performed: the call ends in
error, and the source file, any pre-existing backup, and the destination
are exactly as before.  The two path hypotheses exclude the degenerate
case of the temp path coinciding with the source or backup path (the
driver's file walk always skips temp-suffixed files). -/
theorem c2_temp_write_fault_aborts :
    ∀ (fuel : Nat) (faultOut : List Char) (f : List Char → List Char × MatchCounts)
      (fs : FS) (src dst : String) (dryRun : Bool),
      dst ++ tempSuffix ≠ src →
      dst ++ tempSuffix ≠ src ++ backupSuffix →
      (transformFile fuel (some faultOut) (some f) fs src dst dryRun).2 = Except.error () ∧
      (transformFile fuel (some faultOut) (some f) fs src dst dryRun).1 src = fs src ∧
      (transformFile fuel (some faultOut) (some f) fs src dst dryRun).1 (src ++ backupSuffix)
        = fs (src ++ backupSuffix) ∧
      (transformFile fuel (some faultOut) (some f) fs src dst dryRun).1 dst = fs dst := by
  intro fuel faultOut f fs src dst dryRun h1 h2
  cases hs : fs src with
  | none => simp [transformFile, hs]
  | some file =>
    refine ⟨?_, ?_, ?_, ?_⟩
    · simp [transformFile, hs]
    · simp [transformFile, hs, fsUpdate, Ne.symm h1]
    · simp [transformFile, hs, fsUpdate, Ne.symm h2]
    · simp [transformFile, hs, fsUpdate, Ne.symm (append_tempSuffix_ne dst)]

theorem c2_temp_write_fault_aborts_witness :
    ("a" ++ tempSuffix ≠ "a") ∧ ("a" ++ tempSuffix ≠ "a" ++ backupSuffix) ∧
    (transformFile 1 (some "x".data)
        (some (fun c => (c, ⟨0, 0⟩))) fsAB "a" "a" false).2 = Except.error () ∧
    (transformFile 1 (some "x".data)
        (some (fun c => (c, ⟨0, 0⟩))) fsAB "a" "a" false).1 "a" = fsAB "a" :=
  ⟨by decide, by decide,
    (c2_temp_write_fault_aborts 1 "x".data _ fsAB "a" "a" false (by decide) (by decide)).1,
    (c2_temp_write_fault_aborts 1 "x".data _ fsAB "a" "a" false (by decide) (by decide)).2.1⟩

/-- C3 (amended): an I/O error during the temp-file write of one file in
a `rewrite_files` run aborts that file's transform before any move — the
file system is unchanged except for the partial temp file — but the
exception propagates out of the loop: the run ends in error and the
remaining files are left unprocessed, rather than processing
continuing. -/
theorem c3_fault_halts_run :
    ∀ (fuel : Nat) (faults : String → Option (List Char))
      (patterns : List (String × String)) (fs : FS) (p : String)
      (rest : List String) (dryRun : Bool) (faultOut : List Char),
      faults p = some faultOut →
      (rewriteFiles fuel faults patterns false true fs (p :: rest) dryRun).2
          = Except.error () ∧
      ∀ q, q ≠ p ++ tempSuffix →
        (rewriteFiles fuel faults patterns false true fs (p :: rest) dryRun).1 q = fs q := by
  intro fuel faults patterns fs p rest dryRun faultOut hf
  cases hs : fs p with
  | none =>
    refine ⟨?_, fun q hq => ?_⟩
    · simp [rewriteFiles, rewriteFile, transformFile, Except.map, hf, hs]
    · simp [rewriteFiles, rewriteFile, transformFile, Except.map, hf, hs]
  | some file =>
    refine ⟨?_, fun q hq => ?_⟩
    · simp [rewriteFiles, rewriteFile, transformFile, Except.map, hf, hs]
    · simp [rewriteFiles, rewriteFile, transformFile, Except.map, hf, hs, fsUpdate, hq]

theorem c3_fault_halts_run_witness :
    faultOnA "a" = some "f".data ∧
    (rewriteFiles 5 faultOnA [("foo", "bar")] false true fsAB ["a", "b"] false).2
        = Except.error () ∧
    (rewriteFiles 5 faultOnA [("foo", "bar")] false true fsAB ["a", "b"] false).1 "b"
        = fsAB "b" :=
  ⟨rfl,
    (c3_fault_halts_run 5 faultOnA [("foo", "bar")] fsAB "a" ["b"] false "f".data rfl).1,
    (c3_fault_halts_run 5 faultOnA [("foo", "bar")] fsAB "a" ["b"] false "f".data rfl).2
      "b" (by decide)⟩

/-- C4 (amended): for each pattern line, the pairs emitted by the
compiler (case variants plus original under `preserve_case`) are
deduplicated by `sorted(set(pairs))`: they come out in strictly
increasing lexicographic order — hence duplicate-free — rather than in
the variant-declaration order the claim states; the dedup preserves
exactly the membership of the pair list. -/
theorem c4_emitted_pairs_sorted_dedup :
    (∀ (literal preserveCase : Bool) (line : List Char) (prs : List (String × String)),
        parseLine literal false preserveCase line = Except.ok prs →
        List.Pairwise (fun a b => pairLtB a b = true) prs) ∧
    (∀ (l : List (String × String)) (x : String × String),
        x ∈ sortedDedup l ↔ x ∈ l) := by
  constructor
  · intro literal preserveCase line prs h
    unfold parseLine at h
    split at h
    · exact (Except.ok.inj h) ▸ List.Pairwise.nil
    · split at h
      · split at h
        · split at h
          · split at h
            · rw [wrapWordBreaks_false] at h
              exact (Except.ok.inj h) ▸ sortedDedup_pairwise _
            · simp at h
          · rw [wrapWordBreaks_false] at h
            exact (Except.ok.inj h) ▸ sortedDedup_pairwise _
        · simp at h
      · simp at h
  · exact mem_sortedDedup

theorem c4_emitted_pairs_sorted_dedup_witness :
    parseLine false false true "foo_bar\txxx_yyy".data =
      Except.ok [("FOO_BAR", "XXX_YYY"), ("FooBar", "XxxYyy"),
        ("fooBar", "xxxYyy"), ("foo_bar", "xxx_yyy")] ∧
    List.Pairwise (fun a b => pairLtB a b = true)
      [("FOO_BAR", "XXX_YYY"), ("FooBar", "XxxYyy"),
        ("fooBar", "xxxYyy"), ("foo_bar", "xxx_yyy")] :=
  ⟨rfl, c4_emitted_pairs_sorted_dedup.1 false true "foo_bar\txxx_yyy".data _ rfl⟩

/-- C9: `move_file` with `clobber=false` never overwrites an existing
path — after a successful move every pre-existing file other than the
moved source keeps its content — and in the concrete scenario where
`out` and `out.1` exist, moving the new file to `out` strips and
re-appends numeric suffixes until the fresh path `out.2`, where it
lands; the three distinct contents all survive. -/
theorem c9_non_clobbering_move :
    (∀ (fuel : Nat) (fs : FS) (src dst : String) (fs' : FS),
        moveFile fuel fs src dst false = some fs' →
        ∀ p, p ≠ src → (fs p).isSome = true → fs' p = fs p) ∧
    (moveFile 5 fsOut "new" "out" false).map
        (fun f => (f "out", f "out.1", f "out.2", f "new")) =
      some (some ⟨"A".data, 420⟩, some ⟨"B".data, 420⟩,
        some ⟨"C".data, 420⟩, none) := by
  constructor
  · intro fuel fs src dst fs' hm p hp hs
    unfold moveFile at hm
    simp only [Bool.false_eq_true, if_false] at hm
    cases hr : resolveDest fuel fs dst 1 with
    | none => rw [hr] at hm; simp at hm
    | some d =>
      rw [hr] at hm
      have hfresh := resolveDest_fresh fuel fs dst 1 d hr
      have he : fsMove fs src d = fs' := Option.some.inj hm
      rw [← he]
      unfold fsMove
      have hpd : p ≠ d := by
        intro hx
        rw [hx] at hs
        unfold fsExists at hfresh
        exact Bool.noConfusion (hs.symm.trans hfresh)
      rw [if_neg hpd, if_neg hp]
  · rfl

theorem c9_non_clobbering_move_witness :
    moveFile 5 fsOut "new" "out" false = some (fsMove fsOut "new" "out.2") ∧
    ("out" : String) ≠ "new" ∧ (fsOut "out").isSome = true ∧
    fsMove fsOut "new" "out.2" "out" = fsOut "out" :=
  ⟨rfl, by decide, rfl,
    c9_non_clobbering_move.1 5 fsOut "new" "out" (fsMove fsOut "new" "out.2")
      rfl "out" (by decide) rfl⟩

/-- C10: for every expression whose identifier-like tokens (maximal
`\w+` runs) split under `_split_name` into only non-empty words,
`all_case_variants` returns exactly 4 variant strings without raising;
and the precondition is necessary: tokens with a leading or doubled
underscore, such as `_foo` and `foo__bar`, yield an empty word from the
underscore split, and `_capitalize`'s indexing of `word[0]` raises. -/
theorem c10_case_variants_totality :
    (∀ expr : List Char, (∀ tok ∈ tokensOf expr, [] ∉ (splitName tok).2) →
        ∃ l, allCaseVariants expr = some l ∧ l.length = 4) ∧
    allCaseVariants "_foo".data = none ∧
    allCaseVariants "foo__bar".data = none := by
  refine ⟨?_, rfl, rfl⟩
  intro expr h
  have h1 := transformExpr_isSome toLowerCamel expr
    (fun tok ht => toLowerCamel_isSome tok (h tok ht))
  have h2 := transformExpr_isSome toUpperCamel expr
    (fun tok ht => toUpperCamel_isSome tok (h tok ht))
  have h3 := transformExpr_isSome toLowerUnderscore expr
    (fun tok _ => by simp [toLowerUnderscore])
  have h4 := transformExpr_isSome toUpperUnderscore expr
    (fun tok _ => by simp [toUpperUnderscore])
  rcases Option.isSome_iff_exists.mp h1 with ⟨a, ha⟩
  rcases Option.isSome_iff_exists.mp h2 with ⟨b, hb⟩
  rcases Option.isSome_iff_exists.mp h3 with ⟨c, hc⟩
  rcases Option.isSome_iff_exists.mp h4 with ⟨d, hd⟩
  exact ⟨[a, b, c, d], by simp [allCaseVariants, ha, hb, hc, hd], rfl⟩

theorem c10_case_variants_totality_witness :
    (∀ tok ∈ tokensOf "foo_bar".data, [] ∉ (splitName tok).2) ∧
    ∃ l, allCaseVariants "foo_bar".data = some l ∧ l.length = 4 :=
  ⟨by decide, c10_case_variants_totality.1 "foo_bar".data (by decide)⟩

end Repren
